import Mathlib

/-!
Verification of the Musical Text sentence-detection engine.

The repository carries two evolutions of the engine:
* `SD` models `src/sentence-detection.ts` (marker content trimmed, word
  counting by word-boundary runs, cursor always advanced);
* `P1` models the sibling revision of the same module (raw trailing-slice
  marker content, letters-with-apostrophe word counting, cursor advance
  skipped when the stripped content is empty).

Strings are modelled as `List Char`; JavaScript regex behaviour is unfolded
into explicit scanners; offsets are integers.
-/

namespace MusicalText

/-- Text is modelled as a list of characters. -/
abbrev Str := List Char

/-- JavaScript whitespace class used by regex `\s` and by `String.trim`. -/
def isWs (c : Char) : Bool :=
  c == ' ' || c == '\t' || c == '\n' || c.val == 11 || c.val == 12 || c == '\r' ||
  c.val == 0xa0 || c.val == 0x1680 || (0x2000 ≤ c.val && c.val ≤ 0x200a) ||
  c.val == 0x2028 || c.val == 0x2029 || c.val == 0x202f || c.val == 0x205f ||
  c.val == 0x3000 || c.val == 0xfeff

/-- Sentence-terminal punctuation, the class `[.!?]`. -/
def isPunct (c : Char) : Bool :=
  c == '.' || c == '!' || c == '?'

/-- Characters a JavaScript `.` (dot) never matches: line terminators. -/
def isLineTermCh (c : Char) : Bool :=
  c == '\n' || c == '\r' || c.val == 0x2028 || c.val == 0x2029

/-- Bullet characters of the class `[-*+]`. -/
def isBullet (c : Char) : Bool :=
  c == '-' || c == '*' || c == '+'

/-- ASCII digit, the class `\d`. -/
def isDigitCh (c : Char) : Bool :=
  '0' ≤ c && c ≤ '9'

/-- ASCII letter, the class `[A-Za-z]`. -/
def isLetterCh (c : Char) : Bool :=
  ('a' ≤ c && c ≤ 'z') || ('A' ≤ c && c ≤ 'Z')

/-- Word character, the class `\w`. -/
def isWordCh (c : Char) : Bool :=
  isLetterCh c || isDigitCh c || c == '_'

/-- The ASCII apostrophe. -/
def apos : Char := Char.ofNat 39

/-- The right single quotation mark U+2019. -/
def rsquo : Char := Char.ofNat 0x2019

/-- JavaScript `String.trimStart`. -/
def trimStart (s : Str) : Str := s.dropWhile isWs

/-- JavaScript `String.trimEnd`. -/
def trimEnd (s : Str) : Str := (s.reverse.dropWhile isWs).reverse

/-- JavaScript `String.trim`. -/
def trim (s : Str) : Str := trimEnd (trimStart s)

/-- Plugin settings: the three classification thresholds. -/
structure MusicalTextSettings where
  shortThreshold : Int
  mediumThreshold : Int
  longThreshold : Int
deriving DecidableEq, Repr

/-- Strictly ascending thresholds. -/
def MusicalTextSettings.ascending (st : MusicalTextSettings) : Prop :=
  st.shortThreshold < st.mediumThreshold ∧ st.mediumThreshold < st.longThreshold

instance (st : MusicalTextSettings) : Decidable st.ascending := by
  unfold MusicalTextSettings.ascending; infer_instance

/-- Result of `detectMarkdownListMarker`. -/
structure MarkdownListMarkerResult where
  content : Str
  markerLength : Nat
deriving DecidableEq, Repr

/-- One output decoration: the `builder.add(start, end, mark(class))` call.
`stop` models the `end` offset (`end` is a Lean keyword). -/
structure Span where
  start : Int
  stop : Int
  cls : String
deriving DecidableEq, Repr

/-- `getClassForSentence` of both engine revisions (identical source). -/
def getClassForSentence (wordCount : Int) (settings : MusicalTextSettings) : String :=
  if wordCount < settings.shortThreshold then "sh-mini"
  else if wordCount ≤ settings.mediumThreshold then "sh-short"
  else if wordCount ≤ settings.longThreshold then "sh-medium"
  else "sh-long"

/-- The checkbox rule `^(\s*[-*+]\s*\[[xX\s]\]\s*)(.*)$`.
Returns the consumed marker length and the raw group-2 slice.  Because the
pattern is anchored with `$` and `.` skips line terminators, a match exists
exactly when the remainder after the greedy runs contains no line
terminator. -/
def checkboxRule (line : Str) : Option (Nat × Str) :=
  match line.dropWhile isWs with
  | [] => none
  | b :: r2 =>
    if isBullet b then
      match r2.dropWhile isWs with
      | '[' :: m :: ']' :: r4 =>
        if m == 'x' || m == 'X' || isWs m then
          let r5 := r4.dropWhile isWs
          if r5.all (fun c => !isLineTermCh c) then
            some (line.length - r5.length, r5)
          else none
        else none
      | _ => none
    else none

/-- The ordered-list rule `^(\s*)(\d+)(\.)(\s+)(.*)$`. -/
def orderedRule (line : Str) : Option (Nat × Str) :=
  let r1 := line.dropWhile isWs
  let ds := r1.takeWhile isDigitCh
  let r2 := r1.dropWhile isDigitCh
  if ds.length = 0 then none
  else
    match r2 with
    | '.' :: r3 =>
      let sp := r3.takeWhile isWs
      let r4 := r3.dropWhile isWs
      if sp.length = 0 then none
      else if r4.all (fun c => !isLineTermCh c) then
        some (line.length - r4.length, r4)
      else none
    | _ => none

/-- The unordered-list rule `^(\s*[-*+]\s+)(.*)$`. -/
def unorderedRule (line : Str) : Option (Nat × Str) :=
  match line.dropWhile isWs with
  | [] => none
  | b :: r2 =>
    if isBullet b then
      let sp := r2.takeWhile isWs
      let r3 := r2.dropWhile isWs
      if sp.length = 0 then none
      else if r3.all (fun c => !isLineTermCh c) then
        some (line.length - r3.length, r3)
      else none
    else none

/-- Lookahead `(?=\r?\n|$)` of the sentence regex, tested at a suffix. -/
def lookOk (s : Str) : Bool :=
  match s with
  | [] => true
  | '\n' :: _ => true
  | '\r' :: '\n' :: _ => true
  | _ => false

/-- The `exec` loop of `/([^.!?]*[.!?]+\s*|[^.!?\r\n]+(?=\r?\n|$))/g`,
unfolded: at each scan position the first alternative fires whenever any
terminal punctuation remains (its star runs up to the first punctuation
character and the trailing runs are greedy); otherwise the second
alternative fires at the first position whose maximal
non-punctuation/non-terminator run satisfies the lookahead, and the scan
advances one character when neither matches.  Returns
`(match.index, match)` pairs.  The fuel argument strictly exceeds every
path length, so it never runs out when seeded with `length + 1`. -/
def segsAux : Nat → Str → Nat → List (Nat × Str)
  | 0, _, _ => []
  | _ + 1, [], _ => []
  | fuel + 1, ch :: rest, pos =>
    let s := ch :: rest
    match s.dropWhile (fun c => !isPunct c) with
    | pc :: pr =>
      let a := s.takeWhile (fun c => !isPunct c)
      let b := (pc :: pr).takeWhile isPunct
      let r2 := (pc :: pr).dropWhile isPunct
      let c := r2.takeWhile isWs
      let r3 := r2.dropWhile isWs
      (pos, a ++ b ++ c) :: segsAux fuel r3 (pos + (a.length + b.length + c.length))
    | [] =>
      let r := s.takeWhile (fun c => !(isPunct c || c == '\r' || c == '\n'))
      if 0 < r.length ∧ lookOk (s.drop r.length) = true then
        (pos, r) :: segsAux fuel (s.drop r.length) (pos + r.length)
      else
        segsAux fuel rest (pos + 1)

/-- All sentence-regex matches over one line, with their match indices. -/
def sentenceMatches (line : Str) : List (Nat × Str) :=
  segsAux (line.length + 1) line 0

/-- `text.split(/(\r?\n)/)`: pieces alternate between content (never
containing `'\n'`) and the captured separators `"\n"` / `"\r\n"`. -/
def splitLines : Str → List Str
  | [] => [[]]
  | '\n' :: rest => [] :: ['\n'] :: splitLines rest
  | '\r' :: '\n' :: rest => [] :: ['\r', '\n'] :: splitLines rest
  | ch :: rest =>
    match splitLines rest with
    | p :: ps => (ch :: p) :: ps
    | [] => [[ch]]

/-- Translate a span by an offset (used to state offset correctness). -/
def shiftSpan (d : Int) (sp : Span) : Span :=
  ⟨sp.start + d, sp.stop + d, sp.cls⟩

/-- Spans are strictly positive-width, ordered, and non-overlapping. -/
def spansOK : List Span → Bool
  | [] => true
  | [sp] => sp.start < sp.stop
  | sp :: sp2 :: rest =>
    (decide (sp.start < sp.stop) && decide (sp.stop ≤ sp2.start)) && spansOK (sp2 :: rest)

namespace SD

/-- `countWords` of `sentence-detection.ts`: `\b\w+\b` match count, i.e. the
number of maximal word-character runs; the flag records whether the scanner
is inside a run. -/
def cwAux : Bool → Str → Nat
  | _, [] => 0
  | inWord, c :: rest =>
    if isWordCh c then (if inWord then 0 else 1) + cwAux true rest
    else cwAux false rest

/-- Word counter of `sentence-detection.ts`. -/
def countWords (sentence : Str) : Nat := cwAux false sentence

/-- `detectMarkdownListMarker` of `sentence-detection.ts`: checkbox, then
ordered, then unordered; the extracted content is trimmed. -/
def detectMarkdownListMarker (line : Str) : Option MarkdownListMarkerResult :=
  match checkboxRule line with
  | some (ml, c) => some ⟨trim c, ml⟩
  | none =>
    match orderedRule line with
    | some (ml, c) => some ⟨trim c, ml⟩
    | none =>
      match unorderedRule line with
      | some (ml, c) => some ⟨trim c, ml⟩
      | none => none

/-- The sentence loop of `computeDecorations` over a non-list line. -/
def lineSpans (line : Str) (currentOffset : Nat) (offset : Int)
    (settings : MusicalTextSettings) : List Span :=
  (sentenceMatches line).filterMap fun m =>
    let sentence := m.2
    let trimmedSentence := trim sentence
    if trimmedSentence.length = 0 then none
    else
      let wordCount := countWords trimmedSentence
      let className := getClassForSentence wordCount settings
      if 0 < wordCount then
        let sentenceStart : Int := (currentOffset : Int) + m.1 + offset
        let leadingWhitespace := sentence.length - (trimStart sentence).length
        let trailingWhitespace := sentence.length - (trimEnd sentence).length
        let contentStart := sentenceStart + leadingWhitespace
        let contentEnd := sentenceStart + sentence.length - trailingWhitespace
        if contentStart < contentEnd then some ⟨contentStart, contentEnd, className⟩
        else none
      else none

/-- One iteration of the `for (const line of lines)` body. -/
def processLine (line : Str) (currentOffset : Nat) (offset : Int)
    (settings : MusicalTextSettings) : List Span :=
  if line = ['\n'] ∨ line = ['\r', '\n'] then []
  else if (trim line).length = 0 then []
  else
    match detectMarkdownListMarker (trim line) with
    | some lm =>
      if 0 < lm.content.length then
        let wordCount := countWords lm.content
        let className := getClassForSentence wordCount settings
        if 0 < wordCount then
          let lineStart : Int := (currentOffset : Int) + offset
          let leadingWhitespace := line.length - (trimStart line).length
          let contentStart := lineStart + leadingWhitespace + lm.markerLength
          let contentEnd := contentStart + lm.content.length
          if contentStart < contentEnd then [⟨contentStart, contentEnd, className⟩]
          else []
        else []
      else []
    | none => lineSpans line currentOffset offset settings

/-- The line loop with its running cursor: the cursor always advances by the
original line length. -/
def go (lines : List Str) (currentOffset : Nat) (offset : Int)
    (settings : MusicalTextSettings) : List Span :=
  match lines with
  | [] => []
  | l :: ls =>
    processLine l currentOffset offset settings ++
      go ls (currentOffset + l.length) offset settings

/-- `computeDecorations` of `sentence-detection.ts`. -/
def computeDecorations (text : Str) (settings : MusicalTextSettings)
    (offset : Int) : List Span :=
  go (splitLines text) 0 offset settings

end SD

namespace P1

/-- Word counter of the sibling revision: match count of
`[A-Za-z]+(?:['’][A-Za-z]+)?`, scanned with fuel (one unit per consumed
character suffices). -/
def countWordsAux : Nat → Str → Nat
  | 0, _ => 0
  | _ + 1, [] => 0
  | fuel + 1, ch :: rest =>
    if isLetterCh ch then
      match rest.dropWhile isLetterCh with
      | [] => 1
      | a :: r3 =>
        if (a == apos || a == rsquo) &&
            (match r3 with | b :: _ => isLetterCh b | [] => false) then
          1 + countWordsAux fuel (r3.dropWhile isLetterCh)
        else 1 + countWordsAux fuel (a :: r3)
    else countWordsAux fuel rest

/-- Word counter of the sibling revision. -/
def countWords (sentence : Str) : Nat :=
  countWordsAux (sentence.length + 1) sentence

/-- `detectMarkdownListMarker` of the sibling revision: same three rules,
but the content is the raw trailing slice (no trimming). -/
def detectMarkdownListMarker (line : Str) : Option MarkdownListMarkerResult :=
  match checkboxRule line with
  | some (ml, c) => some ⟨c, ml⟩
  | none =>
    match orderedRule line with
    | some (ml, c) => some ⟨c, ml⟩
    | none =>
      match unorderedRule line with
      | some (ml, c) => some ⟨c, ml⟩
      | none => none

/-- The sentence loop of the sibling `computeDecorations`, run over the
processed line (list content or the raw line). -/
def lineSpans (processedLine : Str) (processedLineOffset : Nat) (offset : Int)
    (settings : MusicalTextSettings) : List Span :=
  (sentenceMatches processedLine).filterMap fun m =>
    let sentence := m.2
    let trimmedSentence := trim sentence
    if trimmedSentence.length = 0 then none
    else
      let wordCount := countWords trimmedSentence
      let className := getClassForSentence wordCount settings
      if wordCount = 0 then none
      else
        let sentenceStart : Int := (processedLineOffset : Int) + m.1 + offset
        let leadingWhitespace := sentence.length - (trimStart sentence).length
        let contentStart := sentenceStart + leadingWhitespace
        let contentEnd := contentStart + trimmedSentence.length
        if contentStart < contentEnd then some ⟨contentStart, contentEnd, className⟩
        else none

/-- The line loop of the sibling revision.  When the processed line is empty
after marker stripping it `continue`s without advancing the cursor. -/
def go (lines : List Str) (currentOffset : Nat) (offset : Int)
    (settings : MusicalTextSettings) : List Span :=
  match lines with
  | [] => []
  | l :: ls =>
    if (trim l).length = 0 then go ls (currentOffset + l.length) offset settings
    else
      let pr := match detectMarkdownListMarker (trim l) with
        | some lm => (lm.content, currentOffset + lm.markerLength)
        | none => (l, currentOffset)
      if pr.1.length = 0 then go ls currentOffset offset settings
      else
        lineSpans pr.1 pr.2 offset settings ++
          go ls (currentOffset + l.length) offset settings

/-- `computeDecorations` of the sibling revision. -/
def computeDecorations (text : Str) (settings : MusicalTextSettings)
    (offset : Int) : List Span :=
  go (splitLines text) 0 offset settings

end P1

/-- The default-like settings used in concrete checks. -/
def st579 : MusicalTextSettings := ⟨5, 7, 9⟩

/-- Lower bounds and disjointness of spans after a cursor position: every
span starts at or after `lo`, is strictly positive-width, ends at or before
`hi`, and precedes the next span. -/
def SpanChainIn (lo hi : Int) : List Span → Prop
  | [] => True
  | sp :: rest => lo ≤ sp.start ∧ sp.start < sp.stop ∧ sp.stop ≤ hi ∧
      SpanChainIn sp.stop hi rest

/-- Like `SpanChainIn` without the upper bound. -/
def SpanChainFrom (lo : Int) : List Span → Prop
  | [] => True
  | sp :: rest => lo ≤ sp.start ∧ sp.start < sp.stop ∧ SpanChainFrom sp.stop rest

/-- Soundness predicate for regex match lists: matches sit between `pos`
and `hi`, are nonempty, and are disjoint in scan order. -/
def segsOKFrom (pos hi : Nat) : List (Nat × Str) → Prop
  | [] => True
  | (i, m) :: rest => pos ≤ i ∧ 0 < m.length ∧ i + m.length ≤ hi ∧
      segsOKFrom (i + m.length) hi rest

/-- The sentence "Hello, world!". -/
def helloWorld : Str := "Hello, world!".toList

/-- The sentence "don't stop" (ASCII apostrophe). -/
def dontStop : Str := "don".toList ++ [apos] ++ "t stop".toList

/-- The checkbox list line of the spec's stripping example. -/
def checkboxLine : Str := "  - [x] Done quickly now.".toList

/-- The ordered list line of the spec's stripping example. -/
def orderedLine : Str := "2. Short one.".toList

/-- A blockquote line. -/
def blockquoteLine : Str := "> hello.".toList

/-- Another blockquote line. -/
def blockquoteLine2 : Str := "> quoted text".toList

/-- An unordered list line with trailing whitespace after the content. -/
def trailingWsLine : Str := "- x ".toList

/-- A checkbox list line and a tidy unordered list line. -/
def checkedTaskLine : Str := "- [ ] task done".toList

/-- Text whose middle line is a checkbox marker with empty content. -/
def emptyTaskText : Str := "Hello.\n- [x]\nWorld.".toList

/-- A line with a lone carriage return inside a sentence. -/
def loneCRText : Str := "a\rb.".toList

/-- The end-to-end scenario text of the spec. -/
def scenarioText : Str :=
  "Hi there. This sentence has eight words inside it.\n- A short list item here.".toList

/-! ### List helper lemmas -/

theorem length_dropWhile_le (p : Char → Bool) (l : Str) :
    (l.dropWhile p).length ≤ l.length :=
  (List.dropWhile_suffix p).length_le

theorem takeWhile_add_dropWhile_length (p : Char → Bool) (l : Str) :
    (l.takeWhile p).length + (l.dropWhile p).length = l.length := by
  rw [← List.length_append, List.takeWhile_append_dropWhile]

theorem length_takeWhile_le (p : Char → Bool) (l : Str) :
    (l.takeWhile p).length ≤ l.length := by
  have := takeWhile_add_dropWhile_length p l; omega

theorem dropWhile_head_false {p : Char → Bool} :
    ∀ {l : Str} {c : Char} {cs : Str}, l.dropWhile p = c :: cs → p c = false := by
  intro l
  induction l with
  | nil => intro c cs h; simp [List.dropWhile] at h
  | cons a t ih =>
    intro c cs h
    rw [List.dropWhile_cons] at h
    by_cases hp : p a
    · rw [if_pos hp] at h; exact ih h
    · rw [if_neg hp] at h
      cases h
      exact Bool.eq_false_iff.mpr hp

theorem dropWhile_eq_self_of_head {p : Char → Bool} {c : Char} {cs : Str}
    (h : p c = false) : (c :: cs).dropWhile p = c :: cs := by
  rw [List.dropWhile_cons, h]; simp

theorem dropWhile_idem (p : Char → Bool) (l : Str) :
    (l.dropWhile p).dropWhile p = l.dropWhile p := by
  cases h : l.dropWhile p with
  | nil => simp
  | cons c cs => exact dropWhile_eq_self_of_head (dropWhile_head_false h)

theorem cons_eq_self_head_false {p : Char → Bool} {c : Char} {cs : Str}
    (h : (c :: cs).dropWhile p = c :: cs) : p c = false := by
  by_contra hp
  rw [List.dropWhile_cons, if_pos (by simpa using hp)] at h
  have := length_dropWhile_le p cs
  have := congrArg List.length h
  simp at this
  omega

theorem length_trimStart_le (s : Str) : (trimStart s).length ≤ s.length :=
  length_dropWhile_le isWs s

theorem length_trimEnd_le (s : Str) : (trimEnd s).length ≤ s.length := by
  unfold trimEnd
  have := length_dropWhile_le isWs s.reverse
  simpa using this

theorem length_trim_le_trimStart (s : Str) :
    (trim s).length ≤ (trimStart s).length :=
  length_trimEnd_le (trimStart s)

theorem length_trim_le (s : Str) : (trim s).length ≤ s.length :=
  le_trans (length_trim_le_trimStart s) (length_trimStart_le s)

/-! ### Theorems for the concrete claims about the classifier and counters -/

/-- C2: with strictly ascending thresholds, the classifier puts a count `n`
into mini exactly when `n < short`, short exactly when `short ≤ n ≤ medium`,
medium exactly when `medium < n ≤ long`, and long exactly when `n > long`;
with thresholds 5/7/9 the counts 4, 5, 7, 8, 9, 10 map to mini, short,
short, medium, medium, long. -/
theorem c2_threshold_boundaries (n : Int) (st : MusicalTextSettings) (_hn : 0 ≤ n)
    (h1 : st.shortThreshold < st.mediumThreshold)
    (h2 : st.mediumThreshold < st.longThreshold) :
    ((getClassForSentence n st = "sh-mini" ↔ n < st.shortThreshold) ∧
     (getClassForSentence n st = "sh-short" ↔
       st.shortThreshold ≤ n ∧ n ≤ st.mediumThreshold) ∧
     (getClassForSentence n st = "sh-medium" ↔
       st.mediumThreshold < n ∧ n ≤ st.longThreshold) ∧
     (getClassForSentence n st = "sh-long" ↔ st.longThreshold < n)) ∧
    (getClassForSentence 4 st579 = "sh-mini" ∧
     getClassForSentence 5 st579 = "sh-short" ∧
     getClassForSentence 7 st579 = "sh-short" ∧
     getClassForSentence 8 st579 = "sh-medium" ∧
     getClassForSentence 9 st579 = "sh-medium" ∧
     getClassForSentence 10 st579 = "sh-long") := by
  refine ⟨?_, by decide⟩
  have e1 : ("sh-mini" : String) ≠ "sh-short" := by decide
  have e2 : ("sh-mini" : String) ≠ "sh-medium" := by decide
  have e3 : ("sh-mini" : String) ≠ "sh-long" := by decide
  have e4 : ("sh-short" : String) ≠ "sh-medium" := by decide
  have e5 : ("sh-short" : String) ≠ "sh-long" := by decide
  have e6 : ("sh-medium" : String) ≠ "sh-long" := by decide
  unfold getClassForSentence
  split_ifs with hA hB hC <;>
    refine ⟨?_, ?_, ?_, ?_⟩ <;> simp_all <;> omega

/-- C2 witness at word count 6 with thresholds 5/7/9. -/
theorem c2_threshold_boundaries_witness :
    (0 : Int) ≤ 6 ∧ (5 : Int) < 7 ∧ (7 : Int) < 9 ∧
    (getClassForSentence 6 st579 = "sh-short" ↔ (5 : Int) ≤ 6 ∧ (6 : Int) ≤ 7) := by
  refine ⟨by decide, by decide, by decide, ?_⟩
  exact ((c2_threshold_boundaries 6 st579 (by decide) (by decide) (by decide)).1).2.1

/-- C9: the classifier is total for every integer word count and every
threshold triple, ascending or not: it returns exactly one of the four
classes, chosen by the first satisfied comparison in the fixed order
mini, short, medium, long. -/
theorem c9_classifier_total (n : Int) (st : MusicalTextSettings) :
    (getClassForSentence n st = "sh-mini" ∨ getClassForSentence n st = "sh-short" ∨
     getClassForSentence n st = "sh-medium" ∨ getClassForSentence n st = "sh-long") ∧
    (getClassForSentence n st = "sh-mini" ↔ n < st.shortThreshold) ∧
    (getClassForSentence n st = "sh-short" ↔
      ¬n < st.shortThreshold ∧ n ≤ st.mediumThreshold) ∧
    (getClassForSentence n st = "sh-medium" ↔
      ¬n < st.shortThreshold ∧ ¬n ≤ st.mediumThreshold ∧ n ≤ st.longThreshold) ∧
    (getClassForSentence n st = "sh-long" ↔
      ¬n < st.shortThreshold ∧ ¬n ≤ st.mediumThreshold ∧ ¬n ≤ st.longThreshold) := by
  have e1 : ("sh-mini" : String) ≠ "sh-short" := by decide
  have e2 : ("sh-mini" : String) ≠ "sh-medium" := by decide
  have e3 : ("sh-mini" : String) ≠ "sh-long" := by decide
  have e4 : ("sh-short" : String) ≠ "sh-medium" := by decide
  have e5 : ("sh-short" : String) ≠ "sh-long" := by decide
  have e6 : ("sh-medium" : String) ≠ "sh-long" := by decide
  unfold getClassForSentence
  split_ifs with hA hB hC <;>
    refine ⟨by simp, ?_, ?_, ?_, ?_⟩ <;> simp_all

/-- C4 counterexample: the word counter of `sentence-detection.ts` uses
`\b\w+\b`, which splits the contraction at the apostrophe; it returns 3,
not 2, for "don't stop". -/
theorem c4_counterexample :
    SD.countWords dontStop ≠ 2 ∧ SD.countWords dontStop = 3 := by decide

/-- C4 amended: both counters return 2 for "Hello, world!"; for
"don't stop" the letters-with-apostrophe counter of the sibling revision
returns 2 (one word per contraction) while the word-boundary counter of
`sentence-detection.ts` returns 3. -/
theorem c4_word_counting :
    SD.countWords helloWorld = 2 ∧ P1.countWords helloWorld = 2 ∧
    P1.countWords dontStop = 2 ∧ SD.countWords dontStop = 3 := by decide

/-- C5: both marker detectors strip `"  - [x] "` (8 characters) from the
checkbox example and `"2. "` (3 characters) from the ordered example,
returning the bare content. -/
theorem c5_list_marker_stripping :
    SD.detectMarkdownListMarker checkboxLine =
      some ⟨"Done quickly now.".toList, 8⟩ ∧
    P1.detectMarkdownListMarker checkboxLine =
      some ⟨"Done quickly now.".toList, 8⟩ ∧
    SD.detectMarkdownListMarker orderedLine = some ⟨"Short one.".toList, 3⟩ ∧
    P1.detectMarkdownListMarker orderedLine = some ⟨"Short one.".toList, 3⟩ := by
  decide

/-- C8 (code bug): on `"Hello.\n- [x]\nWorld."` the sibling revision skips
the cursor advance for the marker-only line `"- [x]"`, so the `"World."`
span lands at offsets 8..14 instead of the true position 13..19, which
`sentence-detection.ts` (and the spec) produce. -/
theorem c8_cursor_bug_eval :
    P1.computeDecorations emptyTaskText st579 0 =
      [⟨0, 6, "sh-mini"⟩, ⟨8, 14, "sh-mini"⟩] ∧
    SD.computeDecorations emptyTaskText st579 0 =
      [⟨0, 6, "sh-mini"⟩, ⟨13, 19, "sh-mini"⟩] ∧
    emptyTaskText[13]? = some 'W' ∧ emptyTaskText[12]? = some '\n' := by decide

/-- C6 counterexample: neither detector recognizes a blockquote marker;
on `"> hello."` both return `none` while the claim requires a non-null
result. -/
theorem c6_counterexample :
    SD.detectMarkdownListMarker blockquoteLine = none ∧
    P1.detectMarkdownListMarker blockquoteLine = none := by decide

/-- C7 counterexample: on `"- x "` the `sentence-detection.ts` detector
returns trimmed content `"x"` with marker length 2, and 2 + 1 ≠ 4. -/
theorem c7_counterexample :
    SD.detectMarkdownListMarker trailingWsLine = some ⟨['x'], 2⟩ ∧
    2 + 1 ≠ trailingWsLine.length := by decide

/-! ### Specification lemmas for the three marker rules -/

theorem checkboxRule_spec {line : Str} {ml : Nat} {c : Str}
    (h : checkboxRule line = some (ml, c)) :
    ml + c.length = line.length ∧ c <:+ line ∧ c.dropWhile isWs = c := by
  unfold checkboxRule at h
  dsimp only at h
  split at h
  · exact absurd h (by simp)
  · rename_i b r2 h1
    split at h
    · split at h
      · rename_i m r4 h2
        split at h
        · split at h
          · have hsuf : r4.dropWhile isWs <:+ line := by
              calc r4.dropWhile isWs <:+ r4 := List.dropWhile_suffix isWs
                _ <:+ ']' :: r4 := List.suffix_cons ']' r4
                _ <:+ m :: ']' :: r4 := List.suffix_cons m _
                _ <:+ '[' :: m :: ']' :: r4 := List.suffix_cons '[' _
                _ <:+ r2 := h2 ▸ List.dropWhile_suffix isWs
                _ <:+ b :: r2 := List.suffix_cons b r2
                _ <:+ line := h1 ▸ List.dropWhile_suffix isWs
            simp only [Option.some.injEq, Prod.mk.injEq] at h
            obtain ⟨hml, hc⟩ := h
            subst hc
            have hlen := hsuf.length_le
            exact ⟨by omega, hsuf, dropWhile_idem isWs r4⟩
          · exact absurd h (by simp)
        · exact absurd h (by simp)
      · exact absurd h (by simp)
    · exact absurd h (by simp)

theorem orderedRule_spec {line : Str} {ml : Nat} {c : Str}
    (h : orderedRule line = some (ml, c)) :
    ml + c.length = line.length ∧ c <:+ line ∧ c.dropWhile isWs = c := by
  unfold orderedRule at h
  dsimp only at h
  split at h
  · exact absurd h (by simp)
  · split at h
    · rename_i hds r3 h2
      split at h
      · exact absurd h (by simp)
      · split at h
        · have hsuf : r3.dropWhile isWs <:+ line := by
            calc r3.dropWhile isWs <:+ r3 := List.dropWhile_suffix isWs
              _ <:+ '.' :: r3 := List.suffix_cons '.' r3
              _ <:+ line.dropWhile isWs := by
                  rw [← h2]; exact List.dropWhile_suffix isDigitCh
              _ <:+ line := List.dropWhile_suffix isWs
          simp only [Option.some.injEq, Prod.mk.injEq] at h
          obtain ⟨hml, hc⟩ := h
          subst hc
          have hlen := hsuf.length_le
          exact ⟨by omega, hsuf, dropWhile_idem isWs r3⟩
        · exact absurd h (by simp)
    · exact absurd h (by simp)

theorem unorderedRule_spec {line : Str} {ml : Nat} {c : Str}
    (h : unorderedRule line = some (ml, c)) :
    ml + c.length = line.length ∧ c <:+ line ∧ c.dropWhile isWs = c := by
  unfold unorderedRule at h
  dsimp only at h
  split at h
  · exact absurd h (by simp)
  · rename_i b r2 h1
    split at h
    · split at h
      · exact absurd h (by simp)
      · split at h
        · have hsuf : r2.dropWhile isWs <:+ line := by
            calc r2.dropWhile isWs <:+ r2 := List.dropWhile_suffix isWs
              _ <:+ b :: r2 := List.suffix_cons b r2
              _ <:+ line := h1 ▸ List.dropWhile_suffix isWs
          simp only [Option.some.injEq, Prod.mk.injEq] at h
          obtain ⟨hml, hc⟩ := h
          subst hc
          have hlen := hsuf.length_le
          exact ⟨by omega, hsuf, dropWhile_idem isWs r2⟩
        · exact absurd h (by simp)
    · exact absurd h (by simp)

/-- The raw-slice detector of the sibling revision: the marker and the
content partition the line. -/
theorem P1.detect_spec_p1 {line : Str} {res : MarkdownListMarkerResult}
    (h : P1.detectMarkdownListMarker line = some res) :
    res.markerLength + res.content.length = line.length ∧
    res.content <:+ line ∧ res.content.dropWhile isWs = res.content := by
  unfold P1.detectMarkdownListMarker at h
  split at h
  · rename_i ml c hcb
    cases h
    exact checkboxRule_spec hcb
  · split at h
    · rename_i ml c hor
      cases h
      exact orderedRule_spec hor
    · split at h
      · rename_i ml c hun
        cases h
        exact unorderedRule_spec hun
      · exact absurd h (by simp)

/-- The trimming detector of `sentence-detection.ts`: the content is the
trim of a raw slice that partitions the line with the marker. -/
theorem SD.detect_spec_sd {line : Str} {res : MarkdownListMarkerResult}
    (h : SD.detectMarkdownListMarker line = some res) :
    ∃ raw : Str, res.content = trim raw ∧
      res.markerLength + raw.length = line.length ∧
      raw <:+ line ∧ raw.dropWhile isWs = raw := by
  unfold SD.detectMarkdownListMarker at h
  split at h
  · rename_i ml c hcb
    cases h
    obtain ⟨h1, h2, h3⟩ := checkboxRule_spec hcb
    exact ⟨c, rfl, h1, h2, h3⟩
  · split at h
    · rename_i ml c hor
      cases h
      obtain ⟨h1, h2, h3⟩ := orderedRule_spec hor
      exact ⟨c, rfl, h1, h2, h3⟩
    · split at h
      · rename_i ml c hun
        cases h
        obtain ⟨h1, h2, h3⟩ := unorderedRule_spec hun
        exact ⟨c, rfl, h1, h2, h3⟩
      · exact absurd h (by simp)

/-- Marker length plus content length never exceeds the line length, for
the trimming detector. -/
theorem SD.detect_le {line : Str} {res : MarkdownListMarkerResult}
    (h : SD.detectMarkdownListMarker line = some res) :
    res.markerLength + res.content.length ≤ line.length := by
  obtain ⟨raw, hc, hlen, _, _⟩ := SD.detect_spec_sd h
  have h2 := length_trim_le raw
  have h3 : res.content.length = (trim raw).length := by rw [hc]
  omega

/-! ### Trim identities used for C7 -/

theorem trimEnd_eq_self_iff (x : Str) :
    trimEnd x = x ↔ x.reverse.dropWhile isWs = x.reverse := by
  unfold trimEnd
  constructor
  · intro h
    have := congrArg List.reverse h
    simpa using this
  · intro h
    rw [h, List.reverse_reverse]

theorem trim_eq_self_of_suffix {raw line : Str} (hsuf : raw <:+ line)
    (hline : trimEnd line = line) (hlead : raw.dropWhile isWs = raw) :
    trim raw = raw := by
  have hrev : line.reverse.dropWhile isWs = line.reverse :=
    (trimEnd_eq_self_iff line).mp hline
  have hend : trimEnd raw = raw := by
    rw [trimEnd_eq_self_iff]
    have hpre : raw.reverse <+: line.reverse := List.reverse_prefix.mpr hsuf
    cases hr : raw.reverse with
    | nil => simp
    | cons a t =>
      obtain ⟨rest, hrest⟩ := hpre
      rw [hr] at hrest
      have : isWs a = false := by
        apply @cons_eq_self_head_false isWs a (t ++ rest)
        rw [show a :: (t ++ rest) = line.reverse from hrest]
        exact hrev
      exact dropWhile_eq_self_of_head this
  unfold trim
  unfold trimStart
  rw [hlead, hend]

/-- C7 amended: for the sibling revision's raw-slice detector,
`markerLength + content.length = line.length` for every line; for the
trimming detector of `sentence-detection.ts` the identity holds whenever
the line has no trailing whitespace (in particular for the pre-trimmed
lines `computeDecorations` feeds it), but can fail otherwise. -/
theorem c7_marker_partition (line : Str) (res : MarkdownListMarkerResult) :
    (P1.detectMarkdownListMarker line = some res →
      res.markerLength + res.content.length = line.length) ∧
    (trimEnd line = line → SD.detectMarkdownListMarker line = some res →
      res.markerLength + res.content.length = line.length) := by
  constructor
  · intro h
    exact (P1.detect_spec_p1 h).1
  · intro hline h
    obtain ⟨raw, hc, hlen, hsuf, hlead⟩ := SD.detect_spec_sd h
    rw [hc, trim_eq_self_of_suffix hsuf hline hlead]
    exact hlen

/-- C7 witness: the identity evaluated on concrete lines for both
detectors. -/
theorem c7_marker_partition_witness :
    (P1.detectMarkdownListMarker checkedTaskLine = some ⟨"task done".toList, 6⟩ ∧
      6 + 9 = checkedTaskLine.length) ∧
    (trimEnd orderedLine = orderedLine ∧
      SD.detectMarkdownListMarker orderedLine = some ⟨"Short one.".toList, 3⟩ ∧
      3 + 10 = orderedLine.length) := by
  refine ⟨⟨by decide, ?_⟩, by decide, by decide, ?_⟩
  · exact (c7_marker_partition checkedTaskLine ⟨"task done".toList, 6⟩).1 (by decide)
  · exact (c7_marker_partition orderedLine ⟨"Short one.".toList, 3⟩).2
      (by decide) (by decide)

/-! ### Blockquote lines are not recognized (C6) -/

/-- C6 amended: the detectors implement only the checkbox, ordered, and
unordered rules; a line whose first non-whitespace character is `'>'`
matches none of them, so both detectors return `none` and the caller
treats the line as plain prose. -/
theorem c6_blockquote_not_recognized (line : Str)
    (h : (trimStart line).head? = some '>') :
    SD.detectMarkdownListMarker line = none ∧
    P1.detectMarkdownListMarker line = none := by
  obtain ⟨t, hgt⟩ : ∃ t, line.dropWhile isWs = '>' :: t := by
    unfold trimStart at h
    cases hd : line.dropWhile isWs with
    | nil => rw [hd] at h; simp at h
    | cons a t =>
      rw [hd] at h
      simp at h
      subst h
      exact ⟨t, rfl⟩
  have hcb : checkboxRule line = none := by
    unfold checkboxRule
    rw [hgt]
    simp [isBullet]
  have hor : orderedRule line = none := by
    unfold orderedRule
    rw [hgt]
    simp [List.takeWhile_cons, isDigitCh]
  have hun : unorderedRule line = none := by
    unfold unorderedRule
    rw [hgt]
    simp [isBullet]
  constructor
  · unfold SD.detectMarkdownListMarker
    rw [hcb, hor, hun]
  · unfold P1.detectMarkdownListMarker
    rw [hcb, hor, hun]

/-- C6 witness: a concrete blockquote line is rejected by both detectors. -/
theorem c6_blockquote_not_recognized_witness :
    (trimStart blockquoteLine2).head? = some '>' ∧
    SD.detectMarkdownListMarker blockquoteLine2 = none ∧
    P1.detectMarkdownListMarker blockquoteLine2 = none := by
  refine ⟨by decide, ?_⟩
  exact c6_blockquote_not_recognized blockquoteLine2 (by decide)

/-! ### Soundness of the sentence scanner -/

theorem segsOKFrom_mono {hi : Nat} :
    ∀ {l : List (Nat × Str)} {pos pos' : Nat}, pos' ≤ pos →
      segsOKFrom pos hi l → segsOKFrom pos' hi l := by
  intro l
  cases l with
  | nil => intro pos pos' _ _; trivial
  | cons hd tl =>
    obtain ⟨i, m⟩ := hd
    intro pos pos' hle h
    obtain ⟨h1, h2, h3, h4⟩ := h
    exact ⟨by omega, h2, h3, h4⟩

theorem segsAux_ok (fuel : Nat) :
    ∀ (s : Str) (pos : Nat), segsOKFrom pos (pos + s.length) (segsAux fuel s pos) := by
  induction fuel with
  | zero => intro s pos; simp only [segsAux]; trivial
  | succ fuel ih =>
    intro s pos
    cases s with
    | nil => simp only [segsAux]; trivial
    | cons ch rest =>
      simp only [segsAux]
      split
      · rename_i pc pr heq
        have hpc : isPunct pc = true := by
          have := dropWhile_head_false heq
          simpa using this
        have hb : 0 < ((pc :: pr).takeWhile isPunct).length := by
          rw [List.takeWhile_cons, hpc]
          simp
        have hA : ((ch :: rest).takeWhile (fun c => !isPunct c)).length +
            (pc :: pr).length = (ch :: rest).length := by
          rw [← heq]; exact takeWhile_add_dropWhile_length _ _
        have hB : ((pc :: pr).takeWhile isPunct).length +
            ((pc :: pr).dropWhile isPunct).length = (pc :: pr).length :=
          takeWhile_add_dropWhile_length _ _
        have hC : (((pc :: pr).dropWhile isPunct).takeWhile isWs).length +
            (((pc :: pr).dropWhile isPunct).dropWhile isWs).length =
            ((pc :: pr).dropWhile isPunct).length :=
          takeWhile_add_dropWhile_length _ _
        refine ⟨le_refl pos, ?_, ?_, ?_⟩
        · simp only [List.length_append]
          omega
        · simp only [List.length_append]
          omega
        · have h4 := ih (((pc :: pr).dropWhile isPunct).dropWhile isWs)
            (pos + (((ch :: rest).takeWhile (fun c => !isPunct c)).length +
              ((pc :: pr).takeWhile isPunct).length +
              (((pc :: pr).dropWhile isPunct).takeWhile isWs).length))
          have hEq : pos + (((ch :: rest).takeWhile (fun c => !isPunct c)).length +
              ((pc :: pr).takeWhile isPunct).length +
              (((pc :: pr).dropWhile isPunct).takeWhile isWs).length) +
              (((pc :: pr).dropWhile isPunct).dropWhile isWs).length =
              pos + (ch :: rest).length := by omega
          rw [hEq] at h4
          exact segsOKFrom_mono (by simp only [List.length_append]; omega) h4
      · rename_i heq
        split
        · rename_i hcond
          obtain ⟨hr, _⟩ := hcond
          have hrle := length_takeWhile_le
            (fun c => !(isPunct c || c == '\r' || c == '\n')) (ch :: rest)
          refine ⟨le_refl pos, hr, by omega, ?_⟩
          have h4 := ih ((ch :: rest).drop
            (((ch :: rest).takeWhile (fun c => !(isPunct c || c == '\r' || c == '\n'))).length))
            (pos + ((ch :: rest).takeWhile (fun c => !(isPunct c || c == '\r' || c == '\n'))).length)
          have hEq : pos + ((ch :: rest).takeWhile
              (fun c => !(isPunct c || c == '\r' || c == '\n'))).length +
              ((ch :: rest).drop (((ch :: rest).takeWhile
                (fun c => !(isPunct c || c == '\r' || c == '\n'))).length)).length =
              pos + (ch :: rest).length := by
            rw [List.length_drop]
            omega
          rw [hEq] at h4
          exact h4
        · have h4 := ih rest (pos + 1)
          have hEq : pos + 1 + rest.length = pos + (ch :: rest).length := by
            simp [List.length_cons]
            omega
          rw [hEq] at h4
          exact segsOKFrom_mono (by omega) h4

theorem sentenceMatches_ok (line : Str) :
    segsOKFrom 0 line.length (sentenceMatches line) := by
  have := segsAux_ok (line.length + 1) line 0
  simpa using this

/-! ### Span chain lemmas -/

theorem spanChainIn_mono_lo {lo lo' hi : Int} (h : lo' ≤ lo) :
    ∀ {l : List Span}, SpanChainIn lo hi l → SpanChainIn lo' hi l := by
  intro l
  cases l with
  | nil => intro _; trivial
  | cons sp tl =>
    intro hc
    obtain ⟨h1, h2, h3, h4⟩ := hc
    exact ⟨by omega, h2, h3, h4⟩

theorem spanChainIn_mono_hi {lo hi hi' : Int} (h : hi ≤ hi') :
    ∀ {l : List Span}, SpanChainIn lo hi l → SpanChainIn lo hi' l := by
  intro l
  induction l generalizing lo with
  | nil => intro _; trivial
  | cons sp tl ih =>
    intro hc
    obtain ⟨h1, h2, h3, h4⟩ := hc
    exact ⟨h1, h2, by omega, ih h4⟩

theorem spanChainFrom_mono {lo lo' : Int} (h : lo' ≤ lo) :
    ∀ {l : List Span}, SpanChainFrom lo l → SpanChainFrom lo' l := by
  intro l
  cases l with
  | nil => intro _; trivial
  | cons sp tl =>
    intro hc
    obtain ⟨h1, h2, h3⟩ := hc
    exact ⟨by omega, h2, h3⟩

theorem spanChainIn_append {mid : Int} :
    ∀ {l1 l2 : List Span} {lo : Int}, SpanChainIn lo mid l1 →
      SpanChainFrom mid l2 → lo ≤ mid → SpanChainFrom lo (l1 ++ l2) := by
  intro l1
  induction l1 with
  | nil =>
    intro l2 lo h1 h2 hlm
    exact spanChainFrom_mono hlm h2
  | cons sp tl ih =>
    intro l2 lo h1 h2 hlm
    obtain ⟨ha, hb, hc, hd⟩ := h1
    exact ⟨ha, hb, ih hd h2 hc⟩

theorem spanChainIn_mem_bounds {hi : Int} :
    ∀ {l : List Span} {lo : Int} {sp : Span}, SpanChainIn lo hi l → sp ∈ l →
      lo ≤ sp.start ∧ sp.start < sp.stop ∧ sp.stop ≤ hi := by
  intro l
  induction l with
  | nil => intro lo sp _ hm; simp at hm
  | cons hd tl ih =>
    intro lo sp hc hm
    obtain ⟨h1, h2, h3, h4⟩ := hc
    rcases List.mem_cons.mp hm with rfl | hm2
    · exact ⟨h1, h2, h3⟩
    · have := ih h4 hm2
      exact ⟨by omega, this.2.1, this.2.2⟩

theorem spansOK_of_chainFrom :
    ∀ {l : List Span} {lo : Int}, SpanChainFrom lo l → spansOK l = true := by
  intro l
  induction l with
  | nil => intro lo _; rfl
  | cons sp tl ih =>
    intro lo h
    obtain ⟨h1, h2, h3⟩ := h
    cases tl with
    | nil => simpa [spansOK] using h2
    | cons sp2 tl2 =>
      have htl := ih h3
      obtain ⟨h4, h5, h6⟩ := h3
      simp only [spansOK, Bool.and_eq_true, decide_eq_true_eq]
      exact ⟨⟨h2, h4⟩, htl⟩

/-- Spans produced from a sound match list by a per-match span former that
stays inside its match are chained within the enclosing bounds. -/
theorem filterMap_chainIn (f : Nat × Str → Option Span) (base : Int)
    (Hf : ∀ (i : Nat) (m : Str) (sp : Span), f (i, m) = some sp →
      base + i ≤ sp.start ∧ sp.start < sp.stop ∧ sp.stop ≤ base + i + m.length) :
    ∀ (l : List (Nat × Str)) (pos hi : Nat), segsOKFrom pos hi l →
      SpanChainIn (base + pos) (base + hi) (l.filterMap f) := by
  intro l
  induction l with
  | nil => intro pos hi _; simp only [List.filterMap_nil]; trivial
  | cons hd tl ih =>
    obtain ⟨i, m⟩ := hd
    intro pos hi hseg
    obtain ⟨hpi, hm, hhi, htl⟩ := hseg
    rw [List.filterMap_cons]
    cases hf : f (i, m) with
    | none =>
      exact spanChainIn_mono_lo (by omega) (ih _ _ htl)
    | some sp =>
      obtain ⟨hb1, hb2, hb3⟩ := Hf i m sp hf
      refine ⟨by omega, hb2, by omega, ?_⟩
      exact spanChainIn_mono_lo (by omega) (ih _ _ htl)

/-- Variant of `filterMap_chainIn` anchored at scan position 0. -/
theorem filterMap_chainIn0 (f : Nat × Str → Option Span) (base : Int) (hi : Nat)
    (Hf : ∀ (i : Nat) (m : Str) (sp : Span), f (i, m) = some sp →
      base + i ≤ sp.start ∧ sp.start < sp.stop ∧ sp.stop ≤ base + i + m.length)
    (l : List (Nat × Str)) (hseg : segsOKFrom 0 hi l) :
    SpanChainIn base (base + hi) (l.filterMap f) := by
  have h := filterMap_chainIn f base Hf l 0 hi hseg
  simpa using h

/-! ### Per-line chain bounds for both revisions -/

theorem SD.lineSpans_chain_sd (line : Str) (cur : Nat) (off : Int)
    (st : MusicalTextSettings) :
    SpanChainIn ((cur : Int) + off) ((cur : Int) + off + line.length)
      (SD.lineSpans line cur off st) := by
  unfold SD.lineSpans
  refine filterMap_chainIn0 _ _ _ ?_ _ (sentenceMatches_ok line)
  intro i m sp hf
  dsimp only at hf
  split_ifs at hf with ht hwc hcc
  · cases hf
    have htrail := length_trimEnd_le m
    have htstart := length_trimStart_le m
    refine ⟨?_, ?_, ?_⟩ <;> dsimp only <;> omega

theorem SD.processLine_chain (line : Str) (cur : Nat) (off : Int)
    (st : MusicalTextSettings) :
    SpanChainIn ((cur : Int) + off) ((cur : Int) + off + line.length)
      (SD.processLine line cur off st) := by
  unfold SD.processLine
  split_ifs with h1 h2
  · trivial
  · trivial
  · split
    · rename_i lm hdet
      dsimp only
      split_ifs with hc hwc hlt
      · have hdl := SD.detect_le hdet
        have ht1 := length_trim_le_trimStart line
        have ht2 := length_trimStart_le line
        refine ⟨?_, ?_, ?_, trivial⟩ <;> dsimp only <;> omega
      · trivial
      · trivial
      · trivial
    · exact SD.lineSpans_chain_sd line cur off st

theorem SD.go_chain_sd (off : Int) (st : MusicalTextSettings) :
    ∀ (lines : List Str) (cur : Nat),
      SpanChainFrom ((cur : Int) + off) (SD.go lines cur off st) := by
  intro lines
  induction lines with
  | nil => intro cur; simp only [SD.go]; trivial
  | cons l ls ih =>
    intro cur
    simp only [SD.go]
    have htl := ih (cur + l.length)
    have he : ((cur + l.length : Nat) : Int) + off =
        (cur : Int) + off + l.length := by push_cast; ring
    rw [he] at htl
    exact spanChainIn_append (SD.processLine_chain l cur off st) htl (by omega)

theorem P1.lineSpans_chain_p1 (pl : Str) (plOff : Nat) (off : Int)
    (st : MusicalTextSettings) :
    SpanChainIn ((plOff : Int) + off) ((plOff : Int) + off + pl.length)
      (P1.lineSpans pl plOff off st) := by
  unfold P1.lineSpans
  refine filterMap_chainIn0 _ _ _ ?_ _ (sentenceMatches_ok pl)
  intro i m sp hf
  dsimp only at hf
  split_ifs at hf with ht hwc hcc
  · cases hf
    have ht1 := length_trim_le_trimStart m
    have ht2 := length_trimStart_le m
    refine ⟨?_, ?_, ?_⟩ <;> dsimp only <;> omega

theorem P1.go_chain_p1 (off : Int) (st : MusicalTextSettings) :
    ∀ (lines : List Str) (cur : Nat),
      SpanChainFrom ((cur : Int) + off) (P1.go lines cur off st) := by
  intro lines
  induction lines with
  | nil => intro cur; simp only [P1.go]; trivial
  | cons l ls ih =>
    intro cur
    simp only [P1.go]
    have htl := ih (cur + l.length)
    have he : ((cur + l.length : Nat) : Int) + off =
        (cur : Int) + off + l.length := by push_cast; ring
    rw [he] at htl
    by_cases hb : (trim l).length = 0
    · rw [if_pos hb]
      exact spanChainFrom_mono (by omega) htl
    · rw [if_neg hb]
      cases hdet : P1.detectMarkdownListMarker (trim l) with
      | none =>
        dsimp only
        by_cases hp : l.length = 0
        · rw [if_pos hp]
          exact ih cur
        · rw [if_neg hp]
          exact spanChainIn_append (P1.lineSpans_chain_p1 l cur off st) htl (by omega)
      | some lm =>
        dsimp only
        by_cases hp : lm.content.length = 0
        · rw [if_pos hp]
          exact ih cur
        · rw [if_neg hp]
          have hds := (P1.detect_spec_p1 hdet).1
          have htle := length_trim_le l
          have hc := P1.lineSpans_chain_p1 lm.content (cur + lm.markerLength) off st
          have hlo : ((cur : Int) + off) ≤ ((cur + lm.markerLength : Nat) : Int) + off := by
            push_cast; omega
          have hhi : ((cur + lm.markerLength : Nat) : Int) + off + lm.content.length ≤
              (cur : Int) + off + l.length := by
            push_cast; omega
          exact spanChainIn_append
            (spanChainIn_mono_lo hlo (spanChainIn_mono_hi hhi hc)) htl (by omega)

/-- C1: for every text, settings with strictly ascending thresholds, and
base offset, the spans of both revisions of `computeDecorations` are
strictly positive-width, sorted by start, and pairwise non-overlapping
(each span ends at or before the next begins). -/
theorem c1_spans_sorted_nonoverlapping (text : Str) (st : MusicalTextSettings)
    (off : Int) (_h : st.ascending) :
    spansOK (SD.computeDecorations text st off) = true ∧
    spansOK (P1.computeDecorations text st off) = true := by
  constructor
  · unfold SD.computeDecorations
    exact spansOK_of_chainFrom (SD.go_chain_sd off st (splitLines text) 0)
  · unfold P1.computeDecorations
    exact spansOK_of_chainFrom (P1.go_chain_p1 off st (splitLines text) 0)

/-! ### Offset correctness (C3) -/

theorem SD.lineSpans_shift_sd (line : Str) (cur : Nat) (off : Int)
    (st : MusicalTextSettings) :
    SD.lineSpans line cur off st =
      (SD.lineSpans line cur 0 st).map (shiftSpan off) := by
  unfold SD.lineSpans
  rw [List.map_filterMap]
  apply List.filterMap_congr
  intro m _
  dsimp only
  split_ifs <;>
    first
      | rfl
      | (exfalso; omega)
      | (simp only [Option.map, shiftSpan, Span.mk.injEq, Option.some.injEq,
           and_true, true_and]
         omega)

theorem SD.processLine_shift (line : Str) (cur : Nat) (off : Int)
    (st : MusicalTextSettings) :
    SD.processLine line cur off st =
      (SD.processLine line cur 0 st).map (shiftSpan off) := by
  unfold SD.processLine
  split_ifs with h1 h2
  · rfl
  · rfl
  · cases hdet : SD.detectMarkdownListMarker (trim line) with
    | none =>
      dsimp only
      exact SD.lineSpans_shift_sd line cur off st
    | some lm =>
      dsimp only
      split_ifs <;>
        first
          | rfl
          | (exfalso; omega)
          | (simp only [List.map_cons, List.map_nil, shiftSpan, Span.mk.injEq,
               List.cons.injEq, and_true, true_and]
             omega)

theorem SD.go_shift_sd (off : Int) (st : MusicalTextSettings) :
    ∀ (lines : List Str) (cur : Nat),
      SD.go lines cur off st = (SD.go lines cur 0 st).map (shiftSpan off) := by
  intro lines
  induction lines with
  | nil => intro cur; rfl
  | cons l ls ih =>
    intro cur
    simp only [SD.go, List.map_append]
    rw [SD.processLine_shift, ih]

theorem P1.lineSpans_shift_p1 (pl : Str) (plOff : Nat) (off : Int)
    (st : MusicalTextSettings) :
    P1.lineSpans pl plOff off st =
      (P1.lineSpans pl plOff 0 st).map (shiftSpan off) := by
  unfold P1.lineSpans
  rw [List.map_filterMap]
  apply List.filterMap_congr
  intro m _
  dsimp only
  split_ifs <;>
    first
      | rfl
      | (exfalso; omega)
      | (simp only [Option.map, shiftSpan, Span.mk.injEq, Option.some.injEq,
           and_true, true_and]
         omega)

theorem P1.go_shift_p1 (off : Int) (st : MusicalTextSettings) :
    ∀ (lines : List Str) (cur : Nat),
      P1.go lines cur off st = (P1.go lines cur 0 st).map (shiftSpan off) := by
  intro lines
  induction lines with
  | nil => intro cur; rfl
  | cons l ls ih =>
    intro cur
    simp only [P1.go]
    cases hdet : P1.detectMarkdownListMarker (trim l) with
    | none =>
      dsimp only
      split_ifs with hb hp
      · exact ih (cur + l.length)
      · exact ih cur
      · rw [List.map_append, P1.lineSpans_shift_p1, ih]
    | some lm =>
      dsimp only
      split_ifs with hb hp
      · exact ih (cur + l.length)
      · exact ih cur
      · rw [List.map_append, P1.lineSpans_shift_p1, ih]

/-- C3: for every text, settings with strictly ascending thresholds, and
integer base offset, `computeDecorations` equals the zero-offset result
with each span translated by the offset and its class unchanged, in both
revisions. -/
theorem c3_offset_shift (text : Str) (st : MusicalTextSettings) (off : Int)
    (_h : st.ascending) :
    SD.computeDecorations text st off =
      (SD.computeDecorations text st 0).map (shiftSpan off) ∧
    P1.computeDecorations text st off =
      (P1.computeDecorations text st 0).map (shiftSpan off) := by
  constructor
  · unfold SD.computeDecorations
    exact SD.go_shift_sd off st (splitLines text) 0
  · unfold P1.computeDecorations
    exact P1.go_shift_p1 off st (splitLines text) 0

/-- C3 witness: the shift identity evaluated at base offset 7 on the
scenario text. -/
theorem c3_offset_shift_witness :
    (MusicalTextSettings.ascending ⟨3, 6, 9⟩) ∧
    SD.computeDecorations scenarioText ⟨3, 6, 9⟩ 7 =
      (SD.computeDecorations scenarioText ⟨3, 6, 9⟩ 0).map (shiftSpan 7) ∧
    P1.computeDecorations scenarioText ⟨3, 6, 9⟩ 7 =
      (P1.computeDecorations scenarioText ⟨3, 6, 9⟩ 0).map (shiftSpan 7) := by
  refine ⟨by decide, ?_⟩
  exact c3_offset_shift scenarioText ⟨3, 6, 9⟩ 7 (by decide)

/-! ### Line pieces and the no-newline invariant (C10) -/

theorem splitLines_ne_nil (t : Str) : splitLines t ≠ [] := by
  induction t using splitLines.induct with
  | case1 => simp [splitLines]
  | case2 rest ih => simp [splitLines]
  | case3 rest ih => simp [splitLines]
  | case4 ch rest h1 h2 p ps hs ih =>
    simp only [splitLines]
    split <;> simp
  | case5 ch rest h1 h2 hs ih => exact absurd hs ih

theorem splitLines_flatten (t : Str) : (splitLines t).flatten = t := by
  induction t using splitLines.induct with
  | case1 => simp [splitLines]
  | case2 rest ih => simp [splitLines, ih]
  | case3 rest ih => simp [splitLines, ih]
  | case4 ch rest h1 h2 p ps hs ih =>
    simp only [splitLines]
    split
    · rename_i p2 ps2 hs2
      rw [hs2] at ih
      simp only [List.flatten_cons] at ih ⊢
      simp [ih]
    · rename_i hs2
      exact absurd hs2 (splitLines_ne_nil rest)
  | case5 ch rest h1 h2 hs ih => exact absurd hs (splitLines_ne_nil rest)

theorem splitLines_shape (t : Str) :
    (∀ p ∈ splitLines t, p = ['\n'] ∨ p = ['\r', '\n'] ∨ '\n' ∉ p) ∧
    (∀ q qs, splitLines t = q :: qs → '\n' ∉ q) := by
  induction t using splitLines.induct with
  | case1 =>
    constructor
    · intro p hp
      simp only [splitLines, List.mem_singleton] at hp
      subst hp
      right; right; simp
    · intro q qs h
      simp only [splitLines, List.cons.injEq] at h
      rw [← h.1]
      simp
  | case2 rest ih =>
    constructor
    · intro p hp
      simp only [splitLines, List.mem_cons] at hp
      rcases hp with rfl | rfl | hp
      · right; right; simp
      · left; rfl
      · exact ih.1 p hp
    · intro q qs h
      simp only [splitLines, List.cons.injEq] at h
      rw [← h.1]
      simp
  | case3 rest ih =>
    constructor
    · intro p hp
      simp only [splitLines, List.mem_cons] at hp
      rcases hp with rfl | rfl | hp
      · right; right; simp
      · right; left; rfl
      · exact ih.1 p hp
    · intro q qs h
      simp only [splitLines, List.cons.injEq] at h
      rw [← h.1]
      simp
  | case4 ch rest h1 h2 p ps hs ih =>
    have hhead : '\n' ∉ ch :: p := by
      intro hmem
      rcases List.mem_cons.mp hmem with heq | hmem2
      · exact h1 heq.symm
      · exact ih.2 p ps hs hmem2
    constructor
    · intro x hx
      simp only [splitLines, hs] at hx
      rcases List.mem_cons.mp hx with rfl | hx2
      · right; right; exact hhead
      · exact ih.1 x (hs ▸ List.mem_cons_of_mem p hx2)
    · intro q qs h
      simp only [splitLines, hs, List.cons.injEq] at h
      rw [← h.1]
      exact hhead
  | case5 ch rest h1 h2 hs ih => exact absurd hs (splitLines_ne_nil rest)

theorem SD.processLine_sep_nl (cur : Nat) (off : Int) (st : MusicalTextSettings) :
    SD.processLine ['\n'] cur off st = [] := by
  simp [SD.processLine]

theorem SD.processLine_sep_crlf (cur : Nat) (off : Int) (st : MusicalTextSettings) :
    SD.processLine ['\r', '\n'] cur off st = [] := by
  simp [SD.processLine]

/-- Every span the `sentence-detection.ts` line loop emits sits inside its
own (newline-free) line piece, so no position it covers holds `'\n'`. -/
theorem SD.go_no_newline (off : Int) (st : MusicalTextSettings) :
    ∀ (lines : List Str) (cur : Nat),
      (∀ p ∈ lines, p = ['\n'] ∨ p = ['\r', '\n'] ∨ '\n' ∉ p) →
      ∀ sp ∈ SD.go lines cur off st, ∀ j : Nat,
        sp.start ≤ (j : Int) + off → (j : Int) + off < sp.stop →
        cur ≤ j ∧ lines.flatten[j - cur]? ≠ some '\n' := by
  intro lines
  induction lines with
  | nil =>
    intro cur _ sp hsp
    simp [SD.go] at hsp
  | cons l ls ih =>
    intro cur hshape sp hsp j hj1 hj2
    simp only [SD.go] at hsp
    rcases List.mem_append.mp hsp with hin | hin
    · have hb := spanChainIn_mem_bounds (SD.processLine_chain l cur off st) hin
      have hcj : cur ≤ j := by omega
      have hjl : j - cur < l.length := by omega
      refine ⟨hcj, ?_⟩
      rw [List.flatten_cons, List.getElem?_append_left hjl]
      rcases hshape l (List.mem_cons_self l ls) with rfl | rfl | hnl
      · rw [SD.processLine_sep_nl] at hin
        simp at hin
      · rw [SD.processLine_sep_crlf] at hin
        simp at hin
      · intro hc
        exact hnl (List.getElem?_mem hc)
    · have hrec := ih (cur + l.length)
        (fun p hp => hshape p (List.mem_cons_of_mem l hp)) sp hin j hj1 hj2
      obtain ⟨hcj, hne⟩ := hrec
      refine ⟨by omega, ?_⟩
      rw [List.flatten_cons, List.getElem?_append_right (by omega : l.length ≤ j - cur)]
      have : j - cur - l.length = j - (cur + l.length) := by omega
      rw [this]
      exact hne

/-- C10 counterexample: on `"a\rb."` (a lone carriage return inside a
sentence) the span [0,4) of `sentence-detection.ts` covers index 1, which
holds `'\r'`; the claim forbids both `'\r'` and `'\n'` inside spans. -/
theorem c10_counterexample :
    ¬ (∀ sp ∈ SD.computeDecorations loneCRText st579 0, ∀ j : Nat,
        sp.start ≤ (j : Int) + 0 → (j : Int) + 0 < sp.stop →
        loneCRText[j]? ≠ some '\r' ∧ loneCRText[j]? ≠ some '\n') := by
  intro h
  have hm : (⟨0, 4, "sh-mini"⟩ : Span) ∈ SD.computeDecorations loneCRText st579 0 := by
    decide
  have := h ⟨0, 4, "sh-mini"⟩ hm 1 (by decide) (by decide)
  exact this.1 (by decide)

/-- C10 amended: for `sentence-detection.ts`, no emitted span covers the
index of a `'\n'` of the input text (spans can cover a lone `'\r'`, and
the sibling revision's cursor defect can even shift spans onto `'\n'`
indices, which the counterexamples record). -/
theorem c10_no_newline_in_span (text : Str) (st : MusicalTextSettings)
    (off : Int) (sp : Span) (hsp : sp ∈ SD.computeDecorations text st off)
    (j : Nat) (h1 : sp.start ≤ (j : Int) + off) (h2 : (j : Int) + off < sp.stop) :
    text[j]? ≠ some '\n' := by
  unfold SD.computeDecorations at hsp
  have := SD.go_no_newline off st (splitLines text) 0
    (splitLines_shape text).1 sp hsp j h1 h2
  rw [splitLines_flatten] at this
  simpa using this.2

/-- C10 witness: the amended claim evaluated on a concrete span. -/
theorem c10_no_newline_in_span_witness :
    (⟨100, 109, "sh-mini"⟩ : Span) ∈
      SD.computeDecorations "Hi there.".toList st579 100 ∧
    "Hi there.".toList[3]? ≠ some '\n' := by
  refine ⟨by decide, ?_⟩
  exact c10_no_newline_in_span "Hi there.".toList st579 100 ⟨100, 109, "sh-mini"⟩
    (by decide) 3 (by decide) (by decide)

/-- C1 witness: the ordering invariant evaluated on the spec's end-to-end
scenario text. -/
theorem c1_spans_sorted_nonoverlapping_witness :
    (MusicalTextSettings.ascending ⟨3, 6, 9⟩) ∧
    spansOK (SD.computeDecorations scenarioText ⟨3, 6, 9⟩ 2) = true ∧
    spansOK (P1.computeDecorations scenarioText ⟨3, 6, 9⟩ 2) = true := by
  refine ⟨by decide, ?_⟩
  exact c1_spans_sorted_nonoverlapping scenarioText ⟨3, 6, 9⟩ 2 (by decide)

end MusicalText
